import Mathlib

/-!
Verification of the code-block extraction and preview composition logic of
GenWeb-2 (`src/frontend/src/components/MainPanel.jsx`).

The response text handed to `extractCodeBlocks` is modelled as a `List Char`.
The three regular expressions of the source,

  text.match of the pattern open-marker `( three backticks, tag, newline )`
  followed by a lazy any-character capture and a closing run of three
  backticks, taking capture group 1 or the empty string,

are modelled by `extractOne`: a JavaScript regex returns the leftmost match,
and at that leftmost position a lazy capture stops at the first subsequent
occurrence of the closing marker.  The leftmost position at which the whole
pattern can match is exactly the first occurrence of the open marker, because
any closing marker that lies behind a later open marker also lies behind the
first one.
-/

namespace GenWeb

/-- Prefix test: `isPre p l` is true when `p` is an initial segment of `l` — the
character-by-character comparison a regex engine performs at one position. -/
def isPre : List Char → List Char → Bool
  | [], _ => true
  | _ :: _, [] => false
  | a :: p, b :: l => a == b && isPre p l

/-- Occurrence test: `matchesAt hay pat k` is true when `pat` occurs in `hay` starting at
index `k`. -/
def matchesAt (hay pat : List Char) (k : Nat) : Bool :=
  isPre pat (hay.drop k)

/-- Index of the leftmost occurrence of `pat` in `hay`, scanning left to
right as a regex engine does; `none` when `pat` does not occur. -/
def findSub : List Char → List Char → Option Nat
  | [], pat => if pat.isEmpty then some 0 else none
  | a :: t, pat =>
    if isPre pat (a :: t) then some 0 else (findSub t pat).map (· + 1)

/-- Whether `pat` occurs somewhere in `hay`. -/
def containsSub (hay pat : List Char) : Bool :=
  (findSub hay pat).isSome

/-- The generic closing fence marker: three backticks. -/
def fence : List Char := "```".data

/-- The category-specific opening marker: three backticks, the category tag,
then a single newline — the literal head of each of the three regexes. -/
def openMarker (tag : List Char) : List Char :=
  fence ++ tag ++ ("\n".data)

/-- One regex of `extractCodeBlocks`: leftmost occurrence of the open marker,
then a lazy capture up to the first subsequent closing fence; capture group 1,
or the empty string when there is no match (the source's fallback). -/
def extractOne (tag text : List Char) : List Char :=
  match findSub text (openMarker tag) with
  | none => []
  | some i =>
    match findSub (text.drop (i + (openMarker tag).length)) fence with
    | none => []
    | some j => (text.drop (i + (openMarker tag).length)).take j

/-- The record returned by `extractCodeBlocks`: the three labeled slots
`html` (markup), `css` (style), `js` (behavior). -/
structure CodeBlocks where
  html : List Char
  css : List Char
  js : List Char
deriving DecidableEq, Repr

/-- Model of `extractCodeBlocks` of the source: three independent extractions from the
same response text. -/
def extractCodeBlocks (text : List Char) : CodeBlocks :=
  { html := extractOne ("html".data) text
    css := extractOne ("css".data) text
    js := extractOne ("js".data) text }

/-- Whether a complete fenced segment of the category is present: an open
marker occurs, and a closing fence occurs after its end.  This is exactly the
condition under which the source regex matches. -/
def segFound (tag text : List Char) : Bool :=
  match findSub text (openMarker tag) with
  | none => false
  | some i => (findSub (text.drop (i + (openMarker tag).length)) fence).isSome

/-- The backtick character. -/
def bq : Char := ("`".data).headD 'A'

/-- Content that can sit verbatim inside a fenced segment: it contains no
closing fence and does not end in a backtick (a trailing backtick would fuse
with the closing fence and move the first closing match forward). -/
def cleanContent (c : List Char) : Bool :=
  !(containsSub c fence) && !(c.getLast? == some bq)

/-- Canonical serialisation of an artifact set: the three category-tagged
fenced segments, one per category, in markup/style/behavior order. -/
def canonical (a : CodeBlocks) : List Char :=
  openMarker ("html".data) ++ a.html ++ fence ++
  openMarker ("css".data) ++ a.css ++ fence ++
  openMarker ("js".data) ++ a.js ++ fence

/-! ### Basic facts about prefix matching -/

theorem isPre_self (p r : List Char) : isPre p (p ++ r) = true := by
  induction p with
  | nil => rfl
  | cons a p ih => simp [isPre, ih]

theorem isPre_len {p l : List Char} (h : isPre p l = true) :
    p.length ≤ l.length := by
  induction p generalizing l with
  | nil => simp
  | cons a p ih =>
    cases l with
    | nil => simp [isPre] at h
    | cons b l =>
      simp only [isPre, Bool.and_eq_true] at h
      simpa [Nat.succ_le_succ_iff] using ih h.2

theorem isPre_ex {p l : List Char} (h : isPre p l = true) :
    ∃ r, l = p ++ r := by
  induction p generalizing l with
  | nil => exact ⟨l, rfl⟩
  | cons a p ih =>
    cases l with
    | nil => simp [isPre] at h
    | cons b l =>
      simp only [isPre, Bool.and_eq_true, beq_iff_eq] at h
      obtain ⟨r, hr⟩ := ih h.2
      refine ⟨r, ?_⟩
      rw [hr, ← h.1]
      rfl

theorem isPre_app {p l r : List Char} (h : isPre p l = true) :
    isPre p (l ++ r) = true := by
  obtain ⟨s, hs⟩ := isPre_ex h
  rw [hs, List.append_assoc]
  exact isPre_self p (s ++ r)

theorem isPre_of_le {p l : List Char} (r : List Char)
    (h : p.length ≤ l.length) : isPre p (l ++ r) = isPre p l := by
  induction p generalizing l with
  | nil => rfl
  | cons a p ih =>
    cases l with
    | nil => simp at h
    | cons b l =>
      simp only [List.length_cons, Nat.succ_le_succ_iff] at h
      show (a == b && isPre p (l ++ r)) = (a == b && isPre p l)
      rw [ih h]

theorem isPre_head {p q l : List Char} (h : isPre (p ++ q) l = true) :
    isPre p l = true := by
  induction p generalizing l with
  | nil => rfl
  | cons a p ih =>
    cases l with
    | nil => simp [isPre] at h
    | cons b l =>
      simp only [List.cons_append, isPre, Bool.and_eq_true] at h ⊢
      exact ⟨h.1, ih h.2⟩

theorem isPre_get {p l : List Char} (h : isPre p l = true) :
    ∀ j, j < p.length → l[j]? = p[j]? := by
  induction p generalizing l with
  | nil => intro j hj; simp at hj
  | cons a p ih =>
    cases l with
    | nil => simp [isPre] at h
    | cons b l =>
      simp only [isPre, Bool.and_eq_true, beq_iff_eq] at h
      intro j hj
      cases j with
      | zero => simp [h.1]
      | succ j =>
        simp only [List.getElem?_cons_succ]
        exact ih h.2 j (by simpa [Nat.succ_lt_succ_iff] using hj)

theorem isPre_take {p l : List Char} {m : Nat}
    (h : isPre p (l.take m) = true) : isPre p l = true := by
  induction p generalizing l m with
  | nil => rfl
  | cons a p ih =>
    cases m with
    | zero => simp [isPre] at h
    | succ m =>
      cases l with
      | nil => simp [isPre] at h
      | cons b l =>
        simp only [List.take_succ_cons, isPre, Bool.and_eq_true] at h ⊢
        exact ⟨h.1, ih h.2⟩

/-! ### Facts about occurrence positions -/

theorem matchesAt_ge {l pat : List Char} {k : Nat} (hp : pat ≠ [])
    (hk : l.length ≤ k) : matchesAt l pat k = false := by
  unfold matchesAt
  rw [List.drop_eq_nil_of_le hk]
  cases pat with
  | nil => exact absurd rfl hp
  | cons a p => rfl

theorem matchesAt_shift (A B pat : List Char) (n : Nat) :
    matchesAt (A ++ B) pat (A.length + n) = matchesAt B pat n := by
  unfold matchesAt
  rw [List.drop_append]

theorem matchesAt_inside {A : List Char} (B pat : List Char) {k : Nat}
    (h : k + pat.length ≤ A.length) :
    matchesAt (A ++ B) pat k = matchesAt A pat k := by
  unfold matchesAt
  rw [List.drop_append_of_le_length (by omega)]
  exact isPre_of_le B (by simp [List.length_drop]; omega)

theorem matchesAt_get {hay pat : List Char} {k : Nat}
    (h : matchesAt hay pat k = true) :
    ∀ j, j < pat.length → hay[k + j]? = pat[j]? := by
  intro j hj
  have := isPre_get h j hj
  rwa [List.getElem?_drop] at this

/-- Refute an occurrence by exhibiting one mismatching character inside the
left block of an appended pair. -/
theorem refuteAt (A R pat : List Char) (k j : Nat)
    (hlt : k + j < A.length)
    (hne : decide (A[k + j]? = pat[j]?) = false)
    (hj : j < pat.length) :
    matchesAt (A ++ R) pat k = false := by
  by_contra hc
  have hm : matchesAt (A ++ R) pat k = true := by
    cases h : matchesAt (A ++ R) pat k with
    | false => exact absurd h hc
    | true => rfl
  have hg := matchesAt_get hm j hj
  rw [List.getElem?_append_left hlt] at hg
  rw [hg] at hne
  simp at hne

/-! ### `findSub` computes the leftmost occurrence -/

theorem findSub_some {hay pat : List Char} {i : Nat}
    (h : findSub hay pat = some i) :
    matchesAt hay pat i = true ∧ ∀ k, k < i → matchesAt hay pat k = false := by
  induction hay generalizing i with
  | nil =>
    unfold findSub at h
    by_cases he : pat.isEmpty
    · simp [he] at h
      subst h
      cases pat with
      | nil => exact ⟨rfl, by intro k hk; omega⟩
      | cons a p => simp [List.isEmpty] at he
    · simp [he] at h
  | cons a t ih =>
    unfold findSub at h
    by_cases hp : isPre pat (a :: t)
    · simp [hp] at h
      subst h
      exact ⟨hp, by intro k hk; omega⟩
    · simp [hp, Option.map_eq_some'] at h
      obtain ⟨i', hi', rfl⟩ := h
      obtain ⟨h1, h2⟩ := ih hi'
      constructor
      · simpa [matchesAt, List.drop_succ_cons] using h1
      · intro k hk
        cases k with
        | zero =>
          simp only [matchesAt, List.drop_zero]
          exact Bool.eq_false_iff.mpr hp
        | succ k =>
          simpa [matchesAt, List.drop_succ_cons] using h2 k (by omega)

theorem findSub_le {hay pat : List Char} {i : Nat}
    (h : matchesAt hay pat i = true) :
    ∃ j, findSub hay pat = some j ∧ j ≤ i := by
  induction hay generalizing i with
  | nil =>
    have : pat = [] := by
      cases pat with
      | nil => rfl
      | cons a p => simp [matchesAt, isPre] at h
    subst this
    exact ⟨0, by simp [findSub, List.isEmpty], by omega⟩
  | cons a t ih =>
    by_cases hp : isPre pat (a :: t)
    · exact ⟨0, by simp [findSub, hp], by omega⟩
    · cases i with
      | zero =>
        simp only [matchesAt, List.drop_zero] at h
        exact absurd h hp
      | succ i =>
        simp only [matchesAt, List.drop_succ_cons] at h
        obtain ⟨j, hj, hle⟩ := ih h
        exact ⟨j + 1, by simp [findSub, hp, hj], by omega⟩

theorem findSub_first {hay pat : List Char} {i : Nat}
    (h1 : matchesAt hay pat i = true)
    (h2 : ∀ k, k < i → matchesAt hay pat k = false) :
    findSub hay pat = some i := by
  obtain ⟨j, hj, hle⟩ := findSub_le h1
  rcases Nat.lt_or_ge j i with hlt | hge
  · have := (findSub_some hj).1
    rw [h2 j hlt] at this
    exact absurd this (by simp)
  · have : j = i := by omega
    rw [hj, this]

theorem findSub_none_of {hay pat : List Char}
    (h : ∀ k, matchesAt hay pat k = false) : findSub hay pat = none := by
  cases hf : findSub hay pat with
  | none => rfl
  | some j =>
    have := (findSub_some hf).1
    rw [h j] at this
    exact absurd this (by simp)

theorem findSub_none_all {hay pat : List Char}
    (h : findSub hay pat = none) : ∀ k, matchesAt hay pat k = false := by
  intro k
  cases hm : matchesAt hay pat k with
  | false => rfl
  | true =>
    obtain ⟨j, hj, _⟩ := findSub_le hm
    rw [h] at hj
    exact absurd hj (by simp)

/-- A bounded absence of occurrences is a full absence: an occurrence needs
`pat.length` characters of room. -/
theorem findSub_none_of_bounded {hay pat : List Char} (hp : pat ≠ [])
    (h : ∀ k, k < hay.length → matchesAt hay pat k = false) :
    findSub hay pat = none := by
  apply findSub_none_of
  intro k
  rcases Nat.lt_or_ge k hay.length with hk | hk
  · exact h k hk
  · exact matchesAt_ge hp hk

theorem findSub_app {A : List Char} (B : List Char) {pat : List Char} {i : Nat}
    (h : findSub A pat = some i) : findSub (A ++ B) pat = some i := by
  obtain ⟨h1, h2⟩ := findSub_some h
  have hlen : i + pat.length ≤ A.length := by
    cases pat with
    | nil =>
      have h0 : i = 0 := by
        by_contra hi
        have h0 := h2 0 (by omega)
        simp [matchesAt, isPre] at h0
      simp [h0]
    | cons c q =>
      have := isPre_len h1
      simp only [List.length_drop, List.length_cons] at this ⊢
      omega
  apply findSub_first
  · rw [matchesAt_inside B pat hlen]
    exact h1
  · intro k hk
    rw [matchesAt_inside B pat (by omega)]
    exact h2 k hk

theorem findSub_start (pat r : List Char) :
    findSub (pat ++ r) pat = some 0 := by
  apply findSub_first
  · simpa [matchesAt] using isPre_self pat r
  · intro k hk
    omega

/-! ### Computation rules for `extractOne` -/

theorem extractOne_eq {tag text : List Char} {i j : Nat}
    (h1 : findSub text (openMarker tag) = some i)
    (h2 : findSub (text.drop (i + (openMarker tag).length)) fence = some j) :
    extractOne tag text = (text.drop (i + (openMarker tag).length)).take j := by
  simp only [extractOne, h1, h2]

theorem extractOne_of_no_open {tag text : List Char}
    (h : findSub text (openMarker tag) = none) : extractOne tag text = [] := by
  simp only [extractOne, h]

theorem extractOne_of_no_close {tag text : List Char} {i : Nat}
    (h1 : findSub text (openMarker tag) = some i)
    (h2 : findSub (text.drop (i + (openMarker tag).length)) fence = none) :
    extractOne tag text = [] := by
  simp only [extractOne, h1, h2]

/-! ### Clean content and canonical fenced segments -/

theorem fence_all_bq : ∀ m, m < 3 → fence[m]? = some bq := by decide

theorem fence_len : fence.length = 3 := by decide

/-- Within clean content followed by anything, the closing fence cannot
occur: not inside the content, and not straddling its right edge. -/
theorem cleanContent_block {A : List Char} (B : List Char)
    (h : cleanContent A = true) :
    ∀ k, k < A.length → matchesAt (A ++ B) fence k = false := by
  intro k hk
  cases hm : matchesAt (A ++ B) fence k with
  | false => rfl
  | true =>
    exfalso
    simp only [cleanContent, Bool.and_eq_true, Bool.not_eq_true'] at h
    obtain ⟨hsub, hlast⟩ := h
    rcases Nat.lt_or_ge A.length (k + fence.length) with hout | hin
    · -- the window straddles the right edge of `A`: its last character is
      -- covered, and every fence character is a backtick
      have hj3 : A.length - 1 - k < fence.length := by
        rw [fence_len] at hout ⊢
        omega
      have hg := matchesAt_get hm (A.length - 1 - k) hj3
      have hkj : k + (A.length - 1 - k) = A.length - 1 := by omega
      rw [hkj, List.getElem?_append_left (by omega)] at hg
      rw [← List.getLast?_eq_getElem?] at hg
      rw [fence_all_bq (A.length - 1 - k) (by rw [← fence_len]; exact hj3)] at hg
      rw [hg] at hlast
      simp at hlast
    · -- the window sits fully inside `A`, which contains no fence
      rw [matchesAt_inside B fence (by omega)] at hm
      obtain ⟨j, hj, _⟩ := findSub_le hm
      rw [containsSub, hj] at hsub
      simp at hsub

theorem findSub_fence_canonical {c : List Char} (T : List Char)
    (h : cleanContent c = true) :
    findSub (c ++ (fence ++ T)) fence = some c.length := by
  apply findSub_first
  · have h0 : matchesAt (fence ++ T) fence 0 = true := by
      simpa [matchesAt] using isPre_self fence T
    have hs := matchesAt_shift c (fence ++ T) fence 0
    rw [h0] at hs
    simpa using hs
  · intro k hk
    exact cleanContent_block (fence ++ T) h k hk

/-- Extraction from a response that starts with a canonical fenced segment of
the requested category returns the segment content verbatim. -/
theorem extractOne_canonical (tag c T : List Char) (h : cleanContent c = true) :
    extractOne tag (openMarker tag ++ c ++ fence ++ T) = c := by
  have e1 : openMarker tag ++ c ++ fence ++ T
      = openMarker tag ++ (c ++ (fence ++ T)) := by
    simp [List.append_assoc]
  rw [e1]
  have e2 : (openMarker tag ++ (c ++ (fence ++ T))).drop
      (0 + (openMarker tag).length) = c ++ (fence ++ T) := by
    rw [Nat.zero_add]
    have hd := @List.drop_append Char (openMarker tag) (c ++ (fence ++ T)) 0
    simp only [List.drop_zero] at hd
    rw [← hd]
    simp
  rw [extractOne_eq (findSub_start (openMarker tag) (c ++ (fence ++ T)))
    (by rw [e2]; exact findSub_fence_canonical T h)]
  rw [e2]
  exact List.take_left c (fence ++ T)

/-! ### Extracted artifacts never contain a closing fence -/

theorem findSub_nil_fence : findSub ([] : List Char) fence = none := by decide

theorem extractOne_no_fence (tag text : List Char) :
    findSub (extractOne tag text) fence = none := by
  cases h1 : findSub text (openMarker tag) with
  | none =>
    rw [extractOne_of_no_open h1]
    exact findSub_nil_fence
  | some i =>
    cases h2 : findSub (text.drop (i + (openMarker tag).length)) fence with
    | none =>
      rw [extractOne_of_no_close h1 h2]
      exact findSub_nil_fence
    | some j =>
      rw [extractOne_eq h1 h2]
      obtain ⟨hj1, hj2⟩ := findSub_some h2
      apply findSub_none_of
      intro k
      cases hm : matchesAt ((text.drop (i + (openMarker tag).length)).take j)
          fence k with
      | false => rfl
      | true =>
        exfalso
        have hkj : k < j := by
          have hl := isPre_len hm
          rw [fence_len] at hl
          simp only [List.length_drop, List.length_take] at hl
          omega
        have hmr : matchesAt (text.drop (i + (openMarker tag).length))
            fence k = true := by
          unfold matchesAt at hm ⊢
          rw [List.drop_take] at hm
          exact isPre_take hm
        rw [hj2 k hkj] at hmr
        exact absurd hmr (by simp)

/-! ### Locating the three markers inside a canonical serialisation -/

/-- The three concrete open markers. -/
def oHtml : List Char := openMarker ("html".data)

def oCss : List Char := openMarker ("css".data)

def oJs : List Char := openMarker ("js".data)

theorem oHtml_len : oHtml.length = 8 := by decide

/-- Chain absence of occurrences across an append. -/
theorem noOccAppend {A R pat : List Char} {b : Nat}
    (h1 : ∀ k, k < A.length → matchesAt (A ++ R) pat k = false)
    (h2 : ∀ m, m < b → matchesAt R pat m = false) :
    ∀ k, k < A.length + b → matchesAt (A ++ R) pat k = false := by
  intro k hk
  rcases Nat.lt_or_ge k A.length with h | h
  · exact h1 k h
  · obtain ⟨m, rfl⟩ : ∃ m, k = A.length + m := ⟨k - A.length, by omega⟩
    rw [matchesAt_shift]
    exact h2 m (by omega)

/-- An open marker starts with the fence, so it cannot occur inside clean
content either. -/
theorem cleanContent_block_open {A : List Char} (B tag : List Char)
    (h : cleanContent A = true) :
    ∀ k, k < A.length → matchesAt (A ++ B) (openMarker tag) k = false := by
  intro k hk
  cases hm : matchesAt (A ++ B) (openMarker tag) k with
  | false => rfl
  | true =>
    exfalso
    have hf : matchesAt (A ++ B) fence k = true := by
      unfold matchesAt at hm ⊢
      unfold openMarker at hm
      exact isPre_head (isPre_head hm)
    rw [cleanContent_block B h k hk] at hf
    exact absurd hf (by simp)

/-- No css open marker begins inside the html open marker. -/
theorem ohBlock_css (R : List Char) :
    ∀ k, k < oHtml.length → matchesAt (oHtml ++ R) oCss k = false := by
  intro k hk
  rw [oHtml_len] at hk
  interval_cases k
  · exact refuteAt oHtml R oCss 0 3 (by decide) (by decide) (by decide)
  · exact refuteAt oHtml R oCss 1 2 (by decide) (by decide) (by decide)
  · exact refuteAt oHtml R oCss 2 1 (by decide) (by decide) (by decide)
  · exact refuteAt oHtml R oCss 3 0 (by decide) (by decide) (by decide)
  · exact refuteAt oHtml R oCss 4 0 (by decide) (by decide) (by decide)
  · exact refuteAt oHtml R oCss 5 0 (by decide) (by decide) (by decide)
  · exact refuteAt oHtml R oCss 6 0 (by decide) (by decide) (by decide)
  · exact refuteAt oHtml R oCss 7 0 (by decide) (by decide) (by decide)

/-- No js open marker begins inside the html open marker. -/
theorem ohBlock_js (R : List Char) :
    ∀ k, k < oHtml.length → matchesAt (oHtml ++ R) oJs k = false := by
  intro k hk
  rw [oHtml_len] at hk
  interval_cases k
  · exact refuteAt oHtml R oJs 0 3 (by decide) (by decide) (by decide)
  · exact refuteAt oHtml R oJs 1 2 (by decide) (by decide) (by decide)
  · exact refuteAt oHtml R oJs 2 1 (by decide) (by decide) (by decide)
  · exact refuteAt oHtml R oJs 3 0 (by decide) (by decide) (by decide)
  · exact refuteAt oHtml R oJs 4 0 (by decide) (by decide) (by decide)
  · exact refuteAt oHtml R oJs 5 0 (by decide) (by decide) (by decide)
  · exact refuteAt oHtml R oJs 6 0 (by decide) (by decide) (by decide)
  · exact refuteAt oHtml R oJs 7 0 (by decide) (by decide) (by decide)

/-- No js open marker begins inside the fence/css-marker block. -/
theorem foc_oJs (R : List Char) :
    ∀ k, k < (fence ++ oCss).length →
      matchesAt ((fence ++ oCss) ++ R) oJs k = false := by
  intro k hk
  have h10 : (fence ++ oCss).length = 10 := by decide
  rw [h10] at hk
  interval_cases k
  · exact refuteAt (fence ++ oCss) R oJs 0 3 (by decide) (by decide) (by decide)
  · exact refuteAt (fence ++ oCss) R oJs 1 3 (by decide) (by decide) (by decide)
  · exact refuteAt (fence ++ oCss) R oJs 2 3 (by decide) (by decide) (by decide)
  · exact refuteAt (fence ++ oCss) R oJs 3 3 (by decide) (by decide) (by decide)
  · exact refuteAt (fence ++ oCss) R oJs 4 2 (by decide) (by decide) (by decide)
  · exact refuteAt (fence ++ oCss) R oJs 5 1 (by decide) (by decide) (by decide)
  · exact refuteAt (fence ++ oCss) R oJs 6 0 (by decide) (by decide) (by decide)
  · exact refuteAt (fence ++ oCss) R oJs 7 0 (by decide) (by decide) (by decide)
  · exact refuteAt (fence ++ oCss) R oJs 8 0 (by decide) (by decide) (by decide)
  · exact refuteAt (fence ++ oCss) R oJs 9 0 (by decide) (by decide) (by decide)

/-- The css open marker does not restart inside the closing fence that
precedes it. -/
theorem foc_oCss (R : List Char) :
    ∀ k, k < 3 → matchesAt ((fence ++ oCss) ++ R) oCss k = false := by
  intro k hk
  interval_cases k
  · exact refuteAt (fence ++ oCss) R oCss 0 3 (by decide) (by decide) (by decide)
  · exact refuteAt (fence ++ oCss) R oCss 1 3 (by decide) (by decide) (by decide)
  · exact refuteAt (fence ++ oCss) R oCss 2 3 (by decide) (by decide) (by decide)

/-- The js open marker does not restart inside the closing fence that
precedes it. -/
theorem foj_oJs (R : List Char) :
    ∀ k, k < 3 → matchesAt ((fence ++ oJs) ++ R) oJs k = false := by
  intro k hk
  interval_cases k
  · exact refuteAt (fence ++ oJs) R oJs 0 3 (by decide) (by decide) (by decide)
  · exact refuteAt (fence ++ oJs) R oJs 1 3 (by decide) (by decide) (by decide)
  · exact refuteAt (fence ++ oJs) R oJs 2 3 (by decide) (by decide) (by decide)

/-- The css open marker occurs nowhere before the css segment of a canonical
serialisation whose markup artifact is clean. -/
theorem noOcc_css (h S : List Char) (hch : cleanContent h = true) :
    ∀ k, k < oHtml.length + (h.length + 3) →
      matchesAt (oHtml ++ (h ++ ((fence ++ oCss) ++ S))) oCss k = false := by
  apply noOccAppend
  · exact ohBlock_css _
  · apply noOccAppend
    · exact cleanContent_block_open _ _ hch
    · exact foc_oCss _

/-- The js open marker occurs nowhere before the js segment of a canonical
serialisation whose markup and style artifacts are clean. -/
theorem noOcc_js (h s S : List Char) (hch : cleanContent h = true)
    (hcs : cleanContent s = true) :
    ∀ k, k < oHtml.length + (h.length + ((fence ++ oCss).length + (s.length + 3))) →
      matchesAt (oHtml ++ (h ++ ((fence ++ oCss) ++ (s ++ ((fence ++ oJs) ++ S)))))
        oJs k = false := by
  apply noOccAppend
  · exact ohBlock_js _
  · apply noOccAppend
    · exact cleanContent_block_open _ _ hch
    · apply noOccAppend
      · exact foc_oJs _
      · apply noOccAppend
        · exact cleanContent_block_open _ _ hcs
        · exact foj_oJs _

/-! ### Round trip through a canonical serialisation -/

theorem findSub_canonical_css (a : CodeBlocks) (hh : cleanContent a.html = true) :
    findSub (canonical a) oCss = some (oHtml.length + (a.html.length + 3)) := by
  rw [show canonical a
      = oHtml ++ (a.html ++ ((fence ++ oCss) ++
          (a.css ++ ((fence ++ oJs) ++ (a.js ++ fence))))) from by
    simp [canonical, oHtml, oCss, oJs, List.append_assoc]]
  apply findSub_first
  · rw [show oHtml ++ (a.html ++ ((fence ++ oCss) ++
          (a.css ++ ((fence ++ oJs) ++ (a.js ++ fence)))))
        = ((oHtml ++ a.html) ++ fence) ++
            (oCss ++ (a.css ++ ((fence ++ oJs) ++ (a.js ++ fence)))) from by
      simp [List.append_assoc]]
    have h0 : matchesAt (oCss ++ (a.css ++ ((fence ++ oJs) ++ (a.js ++ fence))))
        oCss 0 = true := by
      simp [matchesAt, isPre_self]
    have hs := matchesAt_shift ((oHtml ++ a.html) ++ fence)
      (oCss ++ (a.css ++ ((fence ++ oJs) ++ (a.js ++ fence)))) oCss 0
    rw [h0] at hs
    rw [show ((oHtml ++ a.html) ++ fence).length + 0
        = oHtml.length + (a.html.length + 3) from by
      simp only [List.length_append, fence_len]
      omega] at hs
    exact hs
  · intro k hk
    exact noOcc_css a.html (a.css ++ ((fence ++ oJs) ++ (a.js ++ fence))) hh k hk

theorem findSub_canonical_js (a : CodeBlocks) (hh : cleanContent a.html = true)
    (hc : cleanContent a.css = true) :
    findSub (canonical a) oJs
      = some (oHtml.length + (a.html.length + ((fence ++ oCss).length +
          (a.css.length + 3)))) := by
  rw [show canonical a
      = oHtml ++ (a.html ++ ((fence ++ oCss) ++
          (a.css ++ ((fence ++ oJs) ++ (a.js ++ fence))))) from by
    simp [canonical, oHtml, oCss, oJs, List.append_assoc]]
  apply findSub_first
  · rw [show oHtml ++ (a.html ++ ((fence ++ oCss) ++
          (a.css ++ ((fence ++ oJs) ++ (a.js ++ fence)))))
        = ((((oHtml ++ a.html) ++ (fence ++ oCss)) ++ a.css) ++ fence) ++
            (oJs ++ (a.js ++ fence)) from by
      simp [List.append_assoc]]
    have h0 : matchesAt (oJs ++ (a.js ++ fence)) oJs 0 = true := by
      simp [matchesAt, isPre_self]
    have hs := matchesAt_shift ((((oHtml ++ a.html) ++ (fence ++ oCss)) ++ a.css) ++ fence)
      (oJs ++ (a.js ++ fence)) oJs 0
    rw [h0] at hs
    rw [show ((((oHtml ++ a.html) ++ (fence ++ oCss)) ++ a.css) ++ fence).length + 0
        = oHtml.length + (a.html.length + ((fence ++ oCss).length +
            (a.css.length + 3))) from by
      simp only [List.length_append, fence_len]
      omega] at hs
    exact hs
  · intro k hk
    exact noOcc_js a.html a.css (a.js ++ fence) hh hc k hk

theorem canonical_html_slot (a : CodeBlocks) (hh : cleanContent a.html = true) :
    extractOne ("html".data) (canonical a) = a.html := by
  rw [show canonical a
      = openMarker ("html".data) ++ a.html ++ fence ++
          (oCss ++ (a.css ++ (fence ++ (oJs ++ (a.js ++ fence))))) from by
    simp [canonical, oCss, oJs, List.append_assoc]]
  exact extractOne_canonical ("html".data) a.html
    (oCss ++ (a.css ++ (fence ++ (oJs ++ (a.js ++ fence))))) hh

theorem canonical_css_slot (a : CodeBlocks) (hh : cleanContent a.html = true)
    (hc : cleanContent a.css = true) :
    extractOne ("css".data) (canonical a) = a.css := by
  have hdrop : (canonical a).drop ((oHtml.length + (a.html.length + 3)) +
      (openMarker ("css".data)).length)
      = a.css ++ (fence ++ (oJs ++ (a.js ++ fence))) := by
    rw [show canonical a
        = (((oHtml ++ a.html) ++ fence) ++ oCss) ++
            (a.css ++ (fence ++ (oJs ++ (a.js ++ fence)))) from by
      simp [canonical, oHtml, oCss, oJs, List.append_assoc]]
    have hd := @List.drop_append Char ((((oHtml ++ a.html) ++ fence) ++ oCss))
      (a.css ++ (fence ++ (oJs ++ (a.js ++ fence)))) 0
    simp only [List.drop_zero] at hd
    rw [Nat.add_zero] at hd
    rw [show ((((oHtml ++ a.html) ++ fence) ++ oCss)).length
        = (oHtml.length + (a.html.length + 3)) + (openMarker ("css".data)).length
        from by
      simp only [List.length_append, fence_len]
      have h7 : (openMarker ("css".data)).length = 7 := by decide
      have h7' : oCss.length = 7 := by decide
      rw [h7, h7']
      omega] at hd
    exact hd
  have hfence : findSub ((canonical a).drop ((oHtml.length + (a.html.length + 3)) +
      (openMarker ("css".data)).length)) fence = some a.css.length := by
    rw [hdrop]
    exact findSub_fence_canonical (oJs ++ (a.js ++ fence)) hc
  rw [extractOne_eq (findSub_canonical_css a hh) hfence, hdrop]
  exact List.take_left a.css (fence ++ (oJs ++ (a.js ++ fence)))

theorem canonical_js_slot (a : CodeBlocks) (hh : cleanContent a.html = true)
    (hc : cleanContent a.css = true) (hj : cleanContent a.js = true) :
    extractOne ("js".data) (canonical a) = a.js := by
  have hdrop : (canonical a).drop ((oHtml.length + (a.html.length +
      ((fence ++ oCss).length + (a.css.length + 3)))) +
      (openMarker ("js".data)).length)
      = a.js ++ (fence ++ []) := by
    rw [show canonical a
        = ((((((oHtml ++ a.html) ++ fence) ++ oCss) ++ a.css) ++ fence) ++ oJs) ++
            (a.js ++ (fence ++ [])) from by
      simp [canonical, oHtml, oCss, oJs, List.append_assoc]]
    have hd := @List.drop_append Char
      (((((((oHtml ++ a.html) ++ fence) ++ oCss) ++ a.css) ++ fence) ++ oJs))
      (a.js ++ (fence ++ [])) 0
    simp only [List.drop_zero] at hd
    rw [Nat.add_zero] at hd
    rw [show (((((((oHtml ++ a.html) ++ fence) ++ oCss) ++ a.css) ++ fence) ++ oJs)).length
        = (oHtml.length + (a.html.length + ((fence ++ oCss).length +
            (a.css.length + 3)))) + (openMarker ("js".data)).length from by
      simp only [List.length_append, fence_len]
      have h6 : (openMarker ("js".data)).length = 6 := by decide
      have h6' : oJs.length = 6 := by decide
      have h7' : oCss.length = 7 := by decide
      rw [h6, h6', h7']
      omega] at hd
    exact hd
  have hfence : findSub ((canonical a).drop ((oHtml.length + (a.html.length +
      ((fence ++ oCss).length + (a.css.length + 3)))) +
      (openMarker ("js".data)).length)) fence = some a.js.length := by
    rw [hdrop]
    exact findSub_fence_canonical [] hj
  rw [extractOne_eq (findSub_canonical_js a hh hc) hfence, hdrop]
  exact List.take_left a.js (fence ++ [])

/-! ### The preview document of `renderPreview`

The `srcDoc` template literal of the source interpolates the three artifacts
and the fixed `linkScript` into one document string, reproduced here with the
source's exact text (braces and quotes written as character escapes). -/

/-- The fixed safety script of the source (`linkScript`): on load, rewrite
every anchor to `target=_blank` and `rel=noopener noreferrer`. -/
def linkScript : String :=
  "\n        <script>\n          window.onload = function () \x7b\n            const anchors = document.querySelectorAll(\x27a\x27);\n            anchors.forEach(a => \x7b\n              a.setAttribute(\x27target\x27, \x27_blank\x27);\n              a.setAttribute(\x27rel\x27, \x27noopener noreferrer\x27);\n            \x7d);\n          \x7d\n        </script>\n      "

/-- Document text before the style interpolation. -/
def docPartA : String :=
  "<!DOCTYPE html>\n            <html>\n              <head>\n                <meta charset=\"UTF-8\" />\n                <style>"

/-- Document text between the style and markup interpolations. -/
def docPartB : String :=
  "</style>\n              </head>\n              <body>\n                "

/-- Document text between the markup and behavior interpolations. -/
def docPartC : String := "\n                <script>"

/-- Document text between the behavior interpolation and the safety script. -/
def docPartD : String := "</script>\n                "

/-- Document text after the safety script. -/
def docPartE : String := "\n              </body>\n            </html>"

/-- The composed preview document: the `srcDoc` template of the source. -/
def srcDoc (a : CodeBlocks) : String :=
  docPartA ++ String.mk a.css ++ docPartB ++ String.mk a.html ++
    docPartC ++ String.mk a.js ++ docPartD ++ linkScript ++ docPartE

theorem srcDoc_data (a : CodeBlocks) :
    (srcDoc a).data
      = docPartA.data ++ a.css ++ docPartB.data ++ a.html ++
          docPartC.data ++ a.js ++ docPartD.data ++ linkScript.data ++
          docPartE.data := by
  simp only [srcDoc, String.data_append]

/-- An occurrence between two blocks makes containment true. -/
theorem containsSub_of_app (A pat B : List Char) :
    containsSub (A ++ (pat ++ B)) pat = true := by
  have hm : matchesAt (A ++ (pat ++ B)) pat A.length = true := by
    have h0 : matchesAt (pat ++ B) pat 0 = true := by
      simp [matchesAt, isPre_self]
    have hs := matchesAt_shift A (pat ++ B) pat 0
    rw [h0] at hs
    rw [Nat.add_zero] at hs
    exact hs
  obtain ⟨j, hj, _⟩ := findSub_le hm
  simp [containsSub, hj]

/-! ### The DOM effect of the safety script

The body of `linkScript` runs `a.setAttribute('target', '_blank')` and
`a.setAttribute('rel', 'noopener noreferrer')` on every anchor of the loaded
document.  An anchor element is modelled by its attribute list, and
`setAttribute` by the DOM rule: replace the value if the attribute is
present, append it otherwise. -/


/-- A DOM element's attributes: name/value pairs, names unique. -/
abbrev Anchor : Type := List (String × String)

/-- DOM `setAttribute`: overwrite the binding when the name is present,
append it otherwise. -/
def setAttribute (l : Anchor) (n v : String) : Anchor :=
  match l with
  | [] => [(n, v)]
  | p :: t => if p.1 == n then (n, v) :: t else p :: setAttribute t n v

/-- DOM `getAttribute`: value of the first binding of the name. -/
def getAttribute (l : Anchor) (n : String) : Option String :=
  match l with
  | [] => none
  | p :: t => if p.1 == n then some p.2 else getAttribute t n

/-- The loop body of the safety script applied to every anchor of the
document. -/
def applyLinkScript (anchors : List Anchor) : List Anchor :=
  List.map
    (fun a => setAttribute (setAttribute a ("target") ("_blank")) ("rel")
      ("noopener noreferrer")) anchors

theorem getAttribute_setAttribute_same (l : Anchor) (n v : String) :
    getAttribute (setAttribute l n v) n = some v := by
  induction l with
  | nil => simp [setAttribute, getAttribute]
  | cons p t ih =>
    by_cases hp : (p.1 == n) = true
    · simp [setAttribute, getAttribute, hp]
    · have hpf : (p.1 == n) = false := by
        cases hb : p.1 == n with
        | false => rfl
        | true => exact absurd hb hp
      simp [setAttribute, getAttribute, hpf, ih]

theorem getAttribute_setAttribute_other (l : Anchor) {n m : String}
    (v : String) (hnm : (n == m) = false) :
    getAttribute (setAttribute l n v) m = getAttribute l m := by
  induction l with
  | nil => simp [setAttribute, getAttribute, hnm]
  | cons p t ih =>
    by_cases hp : (p.1 == n) = true
    · have hp' : p.1 = n := by simpa using hp
      simp [setAttribute, getAttribute, hp, hnm, hp']
    · have hpf : (p.1 == n) = false := by
        cases hb : p.1 == n with
        | false => rfl
        | true => exact absurd hb hp
      by_cases hm : (p.1 == m) = true
      · simp [setAttribute, getAttribute, hpf, hm]
      · have hmf : (p.1 == m) = false := by
          cases hb : p.1 == m with
          | false => rfl
          | true => exact absurd hb hm
        simp [setAttribute, getAttribute, hpf, hmf, ih]

/-! ### Remaining helper lemmas -/

theorem openMarker_len (tag : List Char) :
    (openMarker tag).length = 3 + tag.length + 1 := by
  unfold openMarker
  rw [List.length_append, List.length_append, fence_len]
  have h1 : ("\n".data).length = 1 := by decide
  rw [h1]

theorem openMarker_ne (tag : List Char) : openMarker tag ≠ [] := by
  apply List.ne_nil_of_length_pos
  rw [openMarker_len]
  omega

theorem extractOne_of_not_found {tag text : List Char}
    (h : segFound tag text = false) : extractOne tag text = [] := by
  unfold segFound at h
  cases h1 : findSub text (openMarker tag) with
  | none => exact extractOne_of_no_open h1
  | some i =>
    simp only [h1] at h
    cases h2 : findSub (text.drop (i + (openMarker tag).length)) fence with
    | none => exact extractOne_of_no_close h1 h2
    | some j =>
      rw [h2] at h
      simp at h

theorem isPre_cancel (A p l : List Char) : isPre (A ++ p) (A ++ l) = isPre p l := by
  induction A with
  | nil => rfl
  | cons a A ih => simp [isPre, ih]

/-- The room an occurrence of the open marker needs. -/
theorem open_room {tag text : List Char} {i : Nat}
    (h : matchesAt text (openMarker tag) i = true) :
    i + (openMarker tag).length ≤ text.length := by
  have hl := isPre_len h
  simp only [List.length_drop] at hl
  have hpos : 0 < (openMarker tag).length := by
    rw [openMarker_len]
    omega
  omega

/-- The room an occurrence of the fence needs. -/
theorem fence_room {text : List Char} {j : Nat}
    (h : matchesAt text fence j = true) : j + 3 ≤ text.length := by
  have hl := isPre_len h
  simp only [List.length_drop, fence_len] at hl
  omega

/-! ## The claims -/

/-- Claim C1. Extraction is total and never raises: `extractCodeBlocks` is a
total function into records whose three slots are always defined lists; a
category whose fenced segment is not found (`segFound` false: no open marker,
or no closing fence after it) resolves to the empty string; and the empty
input yields three empty artifacts. -/
theorem extract_total :
    extractCodeBlocks ([] : List Char) = ⟨[], [], []⟩ ∧
    ∀ text : List Char,
      (segFound ("html".data) text = false →
        (extractCodeBlocks text).html = []) ∧
      (segFound ("css".data) text = false →
        (extractCodeBlocks text).css = []) ∧
      (segFound ("js".data) text = false →
        (extractCodeBlocks text).js = []) := by
  refine ⟨by decide, ?_⟩
  intro text
  refine ⟨?_, ?_, ?_⟩ <;> exact fun h => extractOne_of_not_found h

/-- Witness for C1 at a concrete input with no fenced segment. -/
theorem extract_total_witness :
    segFound ("css".data) ("plain response".data) = false ∧
    (extractCodeBlocks ("plain response".data)).css = [] :=
  ⟨by decide, (extract_total.2 ("plain response".data)).2.1 (by decide)⟩

/-- Claim C2. First-match, non-greedy capture: when the open marker first
occurs at `i` and the closing fence first occurs at `j` past it, the
extracted artifact is exactly the text between them; and once a complete
segment is present, appending anything after the text — in particular later
segments of the same category — does not change the result. -/
theorem extract_first_match :
    (∀ tag text : List Char, ∀ i j : Nat,
      matchesAt text (openMarker tag) i = true →
      (∀ k, k < i → matchesAt text (openMarker tag) k = false) →
      matchesAt (text.drop (i + (openMarker tag).length)) fence j = true →
      (∀ k, k < j →
        matchesAt (text.drop (i + (openMarker tag).length)) fence k = false) →
      extractOne tag text
        = (text.drop (i + (openMarker tag).length)).take j) ∧
    (∀ tag text extra : List Char, segFound tag text = true →
      extractOne tag (text ++ extra) = extractOne tag text) := by
  constructor
  · intro tag text i j h1 h2 h3 h4
    exact extractOne_eq (findSub_first h1 h2) (findSub_first h3 h4)
  · intro tag text extra h
    unfold segFound at h
    cases h1 : findSub text (openMarker tag) with
    | none =>
      simp only [h1] at h
      simp at h
    | some i =>
      simp only [h1] at h
      cases h2 : findSub (text.drop (i + (openMarker tag).length)) fence with
      | none =>
        rw [h2] at h
        simp at h
      | some j =>
        have hroom := open_room (findSub_some h1).1
        have hdrop : (text ++ extra).drop (i + (openMarker tag).length)
            = text.drop (i + (openMarker tag).length) ++ extra :=
          List.drop_append_of_le_length hroom
        have hjroom := fence_room (findSub_some h2).1
        rw [extractOne_eq (findSub_app extra h1)
          (by rw [hdrop]; exact findSub_app extra h2)]
        rw [extractOne_eq h1 h2, hdrop]
        exact List.take_append_of_le_length (by omega)

/-- Witness for C2: two markup segments; only the first is captured, and the
second has no effect. -/
theorem extract_first_match_witness :
    extractOne ("html".data) ("```html\nAB```CD```".data) = ("AB".data) ∧
    extractOne ("html".data)
        (("```html\nAB```CD```".data) ++ ("```html\nZZ```".data))
      = ("AB".data) := by
  constructor
  · rw [extract_first_match.1 ("html".data) ("```html\nAB```CD```".data) 0 2
      (by decide) (by decide) (by decide) (by decide)]
    decide
  · rw [extract_first_match.2 ("html".data) ("```html\nAB```CD```".data)
      ("```html\nZZ```".data) (by decide)]
    decide

/-- Claim C3. Fixed composition order: for every artifact set the composed
preview document decomposes as fixed template fragments around exactly one
interpolated copy of each artifact, in the order style, markup, behavior,
safety script — the fragments `u1..u5` do not depend on the artifacts, so
each artifact is embedded exactly once and the four contents occur as
substrings in that relative order. -/
theorem preview_order :
    ∃ u1 u2 u3 u4 u5 : List Char, ∀ a : CodeBlocks,
      (srcDoc a).data
        = u1 ++ a.css ++ u2 ++ a.html ++ u3 ++ a.js ++ u4 ++
            linkScript.data ++ u5 :=
  ⟨docPartA.data, docPartB.data, docPartC.data, docPartD.data,
    docPartE.data, srcDoc_data⟩

/-- Claim C4. Mandatory safety script: every composed document contains the
fixed link-rewriting script regardless of the artifacts, and the script's
loop gives every anchor of the loaded document the attribute pair
`target=_blank`, `rel=noopener noreferrer`. -/
theorem preview_safety_script :
    (∀ a : CodeBlocks,
      containsSub ((srcDoc a).data) (linkScript.data) = true) ∧
    (∀ anchors : List Anchor, ∀ x, x ∈ applyLinkScript anchors →
      getAttribute x ("target") = some ("_blank") ∧
      getAttribute x ("rel") = some ("noopener noreferrer")) := by
  constructor
  · intro a
    rw [show (srcDoc a).data
        = (docPartA.data ++ a.css ++ docPartB.data ++ a.html ++
            docPartC.data ++ a.js ++ docPartD.data) ++
            (linkScript.data ++ docPartE.data) from by
      rw [srcDoc_data]
      simp [List.append_assoc]]
    exact containsSub_of_app _ _ _
  · intro anchors x hx
    rw [applyLinkScript, List.mem_map] at hx
    obtain ⟨a, _, rfl⟩ := hx
    constructor
    · rw [getAttribute_setAttribute_other _ _ (by decide)]
      exact getAttribute_setAttribute_same _ _ _
    · exact getAttribute_setAttribute_same _ _ _

/-- Witness for C4 on a one-anchor document. -/
theorem preview_safety_script_witness :
    getAttribute (setAttribute (setAttribute [("href", "x")] ("target")
        ("_blank")) ("rel") ("noopener noreferrer")) ("target")
      = some ("_blank") ∧
    getAttribute (setAttribute (setAttribute [("href", "x")] ("target")
        ("_blank")) ("rel") ("noopener noreferrer")) ("rel")
      = some ("noopener noreferrer") :=
  preview_safety_script.2 [[("href", "x")]] _ (by simp [applyLinkScript])

/-- Claim C5, counterexample. The round-trip claim fails as stated: for the
artifact set whose markup is a single backtick, writing the three canonical
fenced segments and re-extracting does not reproduce the artifacts (the
backtick fuses with the closing fence, so the markup slot comes back
empty). -/
theorem roundtrip_counterexample :
    ¬ (extractCodeBlocks (canonical ⟨("`".data), [], []⟩)
        = (⟨("`".data), [], []⟩ : CodeBlocks)) := by decide

/-- Claim C5, amended. Round-trip holds for every artifact set whose slots
are clean — contain no triple-backtick fence and do not end in a backtick
(every set produced by `extractCodeBlocks` is of this shape): re-extracting
from the canonical three-segment serialisation reproduces all three
artifacts byte for byte. -/
theorem extract_roundtrip (a : CodeBlocks) (hh : cleanContent a.html = true)
    (hc : cleanContent a.css = true) (hj : cleanContent a.js = true) :
    extractCodeBlocks (canonical a) = a := by
  have e1 := canonical_html_slot a hh
  have e2 := canonical_css_slot a hh hc
  have e3 := canonical_js_slot a hh hc hj
  simp only [extractCodeBlocks]
  rw [e1, e2, e3]

/-- Witness for C5 at the spec's example artifacts. -/
theorem extract_roundtrip_witness :
    cleanContent ("<h1>Hi</h1>\n".data) = true ∧
    cleanContent ("h1\x7bcolor:red\x7d\n".data) = true ∧
    cleanContent ("console.log(1)\n".data) = true ∧
    extractCodeBlocks (canonical ⟨("<h1>Hi</h1>\n".data),
        ("h1\x7bcolor:red\x7d\n".data), ("console.log(1)\n".data)⟩)
      = ⟨("<h1>Hi</h1>\n".data), ("h1\x7bcolor:red\x7d\n".data),
          ("console.log(1)\n".data)⟩ :=
  ⟨by decide, by decide, by decide,
    extract_roundtrip ⟨("<h1>Hi</h1>\n".data), ("h1\x7bcolor:red\x7d\n".data),
      ("console.log(1)\n".data)⟩ (by decide) (by decide) (by decide)⟩

/-- Claim C6. Category independence: each slot is computed by its own search
over the same input; when a category's open marker occurs nowhere in the
input, that slot is empty, while the other two slots equal exactly the
category-wise extraction `extractOne` of the same input. -/
theorem extract_independent :
    ∀ text : List Char,
      ((∀ k, k < text.length →
          matchesAt text (openMarker ("html".data)) k = false) →
        (extractCodeBlocks text).html = [] ∧
        (extractCodeBlocks text).css = extractOne ("css".data) text ∧
        (extractCodeBlocks text).js = extractOne ("js".data) text) ∧
      ((∀ k, k < text.length →
          matchesAt text (openMarker ("css".data)) k = false) →
        (extractCodeBlocks text).css = [] ∧
        (extractCodeBlocks text).html = extractOne ("html".data) text ∧
        (extractCodeBlocks text).js = extractOne ("js".data) text) ∧
      ((∀ k, k < text.length →
          matchesAt text (openMarker ("js".data)) k = false) →
        (extractCodeBlocks text).js = [] ∧
        (extractCodeBlocks text).html = extractOne ("html".data) text ∧
        (extractCodeBlocks text).css = extractOne ("css".data) text) := by
  intro text
  refine ⟨?_, ?_, ?_⟩ <;>
    exact fun h =>
      ⟨extractOne_of_no_open
          (findSub_none_of_bounded (openMarker_ne _) h), rfl, rfl⟩

/-- Witness for C6: an input with only a style segment. -/
theorem extract_independent_witness :
    (extractCodeBlocks ("```css\nx```".data)).html = [] ∧
    (extractCodeBlocks ("```css\nx```".data)).css
      = extractOne ("css".data) ("```css\nx```".data) := by
  have h := (extract_independent ("```css\nx```".data)).1 (by decide)
  exact ⟨h.1, h.2.1⟩

/-- Claim C7. Whitespace preserved verbatim: on the spec's end-to-end example
the three artifacts are the exact captured substrings including the trailing
newline before each closing fence; and in general a clean leading segment's
content — whatever whitespace it carries — is returned unmodified. -/
theorem extract_verbatim :
    extractCodeBlocks
        ("```html\n<h1>Hi</h1>\n```\n```css\nh1\x7bcolor:red\x7d\n```\n```js\nconsole.log(1)\n```".data)
      = ⟨("<h1>Hi</h1>\n".data), ("h1\x7bcolor:red\x7d\n".data),
          ("console.log(1)\n".data)⟩ ∧
    (∀ c T : List Char, cleanContent c = true →
      extractOne ("html".data)
          (openMarker ("html".data) ++ c ++ fence ++ T) = c) := by
  refine ⟨by decide, ?_⟩
  intro c T hc
  exact extractOne_canonical ("html".data) c T hc

/-- Witness for C7: content consisting of whitespace around a character is
returned with the whitespace intact. -/
theorem extract_verbatim_witness :
    cleanContent ("  x \n".data) = true ∧
    extractOne ("html".data)
        (openMarker ("html".data) ++ ("  x \n".data) ++ fence ++ [])
      = ("  x \n".data) :=
  ⟨by decide, extract_verbatim.2 ("  x \n".data) [] (by decide)⟩

/-- Claim C8. No extracted artifact contains three consecutive backticks: the
capture stops at the first closing fence, so the fence never occurs inside a
returned slot. -/
theorem extract_no_fence_inside :
    ∀ text : List Char,
      containsSub (extractCodeBlocks text).html fence = false ∧
      containsSub (extractCodeBlocks text).css fence = false ∧
      containsSub (extractCodeBlocks text).js fence = false := by
  intro text
  refine ⟨?_, ?_, ?_⟩ <;>
    simp [containsSub, extractCodeBlocks, extractOne_no_fence]

/-- Claim C9. Unclosed fenced segment: when the first occurrence of a
category's open marker is never followed by a closing fence, the slot is the
empty string rather than the text to end-of-input. -/
theorem extract_unclosed_empty :
    ∀ tag text : List Char, ∀ i : Nat,
      matchesAt text (openMarker tag) i = true →
      (∀ k, k < i → matchesAt text (openMarker tag) k = false) →
      (∀ k, k < (text.drop (i + (openMarker tag).length)).length →
        matchesAt (text.drop (i + (openMarker tag).length)) fence k
          = false) →
      extractOne tag text = [] := by
  intro tag text i h1 h2 h3
  exact extractOne_of_no_close (findSub_first h1 h2)
    (findSub_none_of_bounded (by decide) h3)

/-- Witness for C9: an open marker with content but no closing fence. -/
theorem extract_unclosed_empty_witness :
    extractOne ("html".data) ("```html\nabc".data) = [] :=
  extract_unclosed_empty ("html".data) ("```html\nabc".data) 0
    (by decide) (by decide) (by decide)

/-- Claim C10. Marker shape: the open marker is the tag followed immediately
by a single newline.  A space after the tag, extra text on the marker line,
or a carriage-return/newline pair is not recognized (each concrete input
below yields an empty markup slot), and in general the marker fails to match
wherever the tag is followed by any character other than a newline. -/
theorem extract_marker_shape :
    (extractCodeBlocks ("```html \n<h1>Hi</h1>\n```".data)).html = [] ∧
    (extractCodeBlocks ("```htmlpage\n<h1>Hi</h1>\n```".data)).html = [] ∧
    (extractCodeBlocks ("```html\r\n<h1>Hi</h1>\n```".data)).html = [] ∧
    (∀ c : Char, ∀ rest : List Char, (c == '\n') = false →
      isPre (openMarker ("html".data)) (("```html".data) ++ (c :: rest))
        = false) := by
  refine ⟨by decide, by decide, by decide, ?_⟩
  intro c rest hc
  rw [show openMarker ("html".data) = ("```html".data) ++ ('\n' :: []) from
    by decide]
  rw [isPre_cancel]
  show ('\n' == c && isPre [] rest) = false
  have hcc : ('\n' == c) = false := by
    cases hb : '\n' == c with
    | false => rfl
    | true =>
      exfalso
      have : '\n' = c := by simpa using hb
      rw [← this] at hc
      simp at hc
  rw [hcc]
  rfl

/-- Witness for C10: a space after the tag defeats the marker. -/
theorem extract_marker_shape_witness :
    ((Char.ofNat 32 == '\n') = false) ∧
    isPre (openMarker ("html".data))
        (("```html".data) ++ (Char.ofNat 32 :: [])) = false :=
  ⟨by decide, extract_marker_shape.2.2.2 (Char.ofNat 32) [] (by decide)⟩

end GenWeb
